import Mathlib

/-!
Verification development for the libopdis data model (`model.h` / `model.c`).

C strings and buffers are modelled as lists of byte values (`Nat`); a buffer
list holds the entire allocated region, NUL bytes included, and the string
stored in a buffer is its longest NUL-free prefix (`cstr`).  Operand objects
live in an explicit heap (`OpHeap`), and C pointers to operands are indices
into that heap, so pointer copying (`memcpy` of an instruction struct) and
fresh allocation are modelled faithfully.  Machine-integer wraparound is made
explicit: the 8-bit capacity fields store their value mod 256, and the
`unsigned`/`size_t` arithmetic in the mutators is computed mod 2^32 / 2^64.
-/

namespace Opdis

/-- A C byte string / buffer: the list of byte values of the allocated region. -/
abbrev Str := List Nat

/-- The string stored in a buffer: its longest prefix of non-NUL bytes
(what `strlen`/`strcpy`-style reads observe). -/
def cstr (buf : Str) : Str := buf.takeWhile (fun b => b != 0)

/-- `strdup` applied to a buffer: a fresh minimal buffer holding the stored
string plus its terminator. -/
def strdupBuf (buf : Str) : Str := cstr buf ++ [0]

/-- A freshly `calloc`ed region of `n` zero bytes. -/
def callocBuf (n : Nat) : Str := List.replicate n 0

/-- Truncation of a C `int`-valued expression to `unsigned int` (32 bits). -/
def u32 (i : Int) : Nat := (i % (2 ^ 32 : Int)).toNat

/-- Truncation of a C integer expression to `size_t` (64 bits). -/
def u64 (i : Int) : Nat := (i % (2 ^ 64 : Int)).toNat

/-- `strncpy(dst, src, n)`: writes `min n dst.length` bytes into the buffer
(source bytes, then NUL padding); `src` is the abstract source string (no
interior NUL).  `strncpy` itself always writes exactly `n` bytes, so the write
stays inside `dst` iff `n ≤ dst.length`; the model materialises only the
in-buffer effect. -/
def strncpyBuf (dst src : Str) (n : Nat) : Str :=
  (src.take (min n dst.length) ++
      List.replicate (min n dst.length - src.length) 0) ++
    dst.drop (min n dst.length)

/-- Whether the `n`-byte write of `strncpy(dst, _, n)` stays inside `dst`. -/
def strncpyInBounds (dst : Str) (n : Nat) : Bool := n ≤ dst.length

/-- `strncat(dst, src, n)`: appends at most `n` bytes of `src` after the
stored string of `dst` and always appends a terminating NUL (in-buffer
effect). -/
def strncatBuf (dst src : Str) (n : Nat) : Str :=
  (cstr dst ++ src.take n ++ [0]).take
      (min (cstr dst ++ src.take n ++ [0]).length dst.length) ++
    dst.drop (min (cstr dst ++ src.take n ++ [0]).length dst.length)

/-- `strcat(dst, src)`: appends `src` plus a terminator after the stored
string of `dst` (the dynamic-mode callers have just `realloc`ed `dst` large
enough). -/
def strcatBuf (dst src : Str) : Str :=
  (cstr dst ++ src ++ [0]) ++ dst.drop (cstr dst ++ src ++ [0]).length

/-- `realloc(old, n)`: the first `n` bytes of the region; bytes beyond the old
size are indeterminate (modelled as 0 — the callers overwrite them before any
read). -/
def reallocBuf (old : Str) (n : Nat) : Str :=
  (old ++ List.replicate (n - old.length) 0).take n

/-- Modelled from the spec: `opdis_insn_cat_t` is declared in
`opdis/metadata.h`, which is absent from the sources; `model.c` only compares
the category against the control-flow tag, so the other enumerators are
collapsed into `other`. -/
inductive InsnCat where
  | cflow
  | other (n : Nat)
  deriving DecidableEq, Repr

/-- Modelled from the spec: `opdis_cflow_flag_t` from the missing
`opdis/metadata.h`.  `model.c` only compares the flag field for equality with
the call/callcc/jmp/jmpcc/ret enumerators; values written through the other
arms of the flag union are collapsed into `other`. -/
inductive CflowFlag where
  | call
  | callcc
  | jmp
  | jmpcc
  | ret
  | other (n : Nat)
  deriving DecidableEq, Repr

/-- `opdis_decode_invalid` (model.h). -/
def opdis_decode_invalid : Nat := 0
/-- `opdis_decode_mnem_flags` (model.h): instruction category and flags
decoded. -/
def opdis_decode_mnem_flags : Nat := 8

/-- `opdis_reg_t` (model.h): register operand component. -/
structure Reg where
  ascii : Str
  flags : Nat
  id : Nat
  size : Nat
  deriving DecidableEq, Repr

/-- `opdis_abs_addr_t` (model.h). -/
structure AbsAddr where
  segment : Reg
  offset : Nat
  deriving DecidableEq, Repr

/-- The displacement union of `opdis_addr_expr_t` (model.h). -/
inductive Displacement where
  | u (v : Nat)
  | s (v : Int)
  | a (v : AbsAddr)
  deriving DecidableEq, Repr

/-- `opdis_addr_expr_t` (model.h). -/
structure AddrExpr where
  elements : Nat
  shift : Nat
  scale : Int
  index : Reg
  base : Reg
  displacement : Displacement
  deriving DecidableEq, Repr

/-- The immediate union of `opdis_op_t.value` (model.h). -/
inductive Immediate where
  | vma (v : Nat)
  | u (v : Nat)
  | s (v : Int)
  deriving DecidableEq, Repr

/-- The `value` union of `opdis_op_t` (model.h).  `model.c` only ever copies
it wholesale (`memcpy`), so a tagged sum is a faithful model. -/
inductive OpValue where
  | reg (v : Reg)
  | expr (v : AddrExpr)
  | abs (v : AbsAddr)
  | immediate (v : Immediate)
  deriving DecidableEq, Repr

/-- `opdis_op_t` (model.h).  `ascii` is `none` for a NULL pointer, otherwise
the full allocated buffer.  `ascii_sz` is an `unsigned char` field, so it
always holds a value below 256. -/
structure Op where
  ascii : Option Str
  category : Nat
  flags : Nat
  value : OpValue
  data_size : Nat
  fixed_size : Bool
  ascii_sz : Nat
  deriving DecidableEq, Repr

/-- A zero-filled `opdis_op_t` as produced by `calloc` (the all-zero bytes of
the value union are read back as a zero immediate). -/
def opZero : Op :=
  { ascii := none, category := 0, flags := 0,
    value := OpValue.immediate (Immediate.u 0),
    data_size := 0, fixed_size := false, ascii_sz := 0 }

/-- The operand heap: allocated `opdis_op_t` objects; a C `opdis_op_t *` is an
index into this list, and fresh allocations append (fresh addresses). -/
abbrev OpHeap := List Op

/-- `opdis_insn_t` (model.h).  String fields are `none` for NULL pointers,
otherwise whole buffers; `operands` is the pointer array (heap indices, `none`
for a NULL slot); `target`/`dest`/`src` are operand pointers.  The 8-bit
`ascii_sz`/`mnemonic_sz` fields always hold values below 256. -/
structure Insn where
  status : Nat
  ascii : Option Str
  offset : Nat
  vma : Nat
  size : Nat
  bytes : Option (List Nat)
  num_prefixes : Nat
  prefixes : Option Str
  mnemonic : Option Str
  category : InsnCat
  isa : Nat
  flags : CflowFlag
  comment : Option Str
  num_operands : Nat
  alloc_operands : Nat
  operands : List (Option Nat)
  target : Option Nat
  dest : Option Nat
  src : Option Nat
  fixed_size : Bool
  ascii_sz : Nat
  mnemonic_sz : Nat
  deriving DecidableEq, Repr

/-- A zero-filled `opdis_insn_t` as produced by `calloc`. -/
def insnZero : Insn :=
  { status := 0, ascii := none, offset := 0, vma := 0, size := 0,
    bytes := none, num_prefixes := 0, prefixes := none, mnemonic := none,
    category := InsnCat.other 0, isa := 0, flags := CflowFlag.other 0,
    comment := none, num_operands := 0, alloc_operands := 0, operands := [],
    target := none, dest := none, src := none,
    fixed_size := false, ascii_sz := 0, mnemonic_sz := 0 }

/-! ### Operand lifecycle (model.c) -/

/-- `opdis_op_alloc` (model.c): `calloc` a zeroed operand; the model tracks
the success path, allocating a fresh heap cell. -/
def opdis_op_alloc (h : OpHeap) : OpHeap × Nat :=
  (h ++ [opZero], h.length)

/-- `opdis_op_alloc_fixed` (model.c): allocate, then set `fixed_size`, record
the capacity in the 8-bit `ascii_sz` field (truncating mod 256), and `calloc`
an `ascii_sz`-byte ascii buffer. -/
def opdis_op_alloc_fixed (h : OpHeap) (ascii_sz : Nat) : OpHeap × Nat :=
  let (h1, p) := opdis_op_alloc h
  let op := { opZero with
                fixed_size := true,
                ascii_sz := ascii_sz % 256,
                ascii := some (callocBuf ascii_sz) }
  (h1.set p op, p)

/-- `opdis_op_dupe` (model.c): allocate, `memcpy` the whole struct (including
`fixed_size` and `ascii_sz`), then replace `ascii` with a `strdup` of the
source's (left NULL if the source's was NULL).  Fails only when the source
pointer is invalid (a NULL dereference in C — not reachable from the states
the theorems quantify over). -/
def opdis_op_dupe (h : OpHeap) (p : Nat) : OpHeap × Option Nat :=
  match h[p]? with
  | none => (h, none)
  | some op =>
      (h ++ [{ op with ascii := op.ascii.map strdupBuf }], some h.length)

/-- `opdis_op_set_ascii` (model.c): silent no-op on a NULL operand or NULL
text; on a fixed-size operand, `strncpy` into the existing buffer with count
`ascii_sz - 1` computed in C integer arithmetic (`unsigned char` promoted to
`int`, converted to `size_t`); on a dynamic operand, replace the owned string
with a `strdup` of the text. -/
def opdis_op_set_ascii (op : Option Op) (ascii : Option Str) : Option Op :=
  match op, ascii with
  | none, _ => none
  | some o, none => some o
  | some o, some s =>
      if o.fixed_size then
        some { o with
                 ascii := some (strncpyBuf (o.ascii.getD []) s
                                  (u64 ((o.ascii_sz : Int) - 1))) }
      else
        some { o with ascii := some (s ++ [0]) }

/-! ### Instruction lifecycle (model.c) -/

/-- `opdis_insn_alloc` (model.c): `calloc` a zeroed instruction; when
`num_operands` is nonzero, `calloc` a NULL-filled pointer array of that many
slots and record `alloc_operands` (for zero the array stays NULL, modelled as
`[]`, and `alloc_operands` stays 0 — the same value this definition gives). -/
def opdis_insn_alloc (num_operands : Nat) : Insn :=
  { insnZero with
      operands := List.replicate num_operands none,
      alloc_operands := num_operands }

/-- The operand-allocation loop of `opdis_insn_alloc_fixed` (model.c, lines
60–69), iterating `k` more times from slot `i`: each step allocates a
fixed-size operand, stores its pointer in slot `i`, and increments
`alloc_operands` (on top of the value `opdis_insn_alloc` already set). -/
def insn_alloc_fixed_ops (h : OpHeap) (insn : Insn) (op_ascii_sz i k : Nat) :
    OpHeap × Insn :=
  match k with
  | 0 => (h, insn)
  | k' + 1 =>
      let (h1, p) := opdis_op_alloc_fixed h op_ascii_sz
      insn_alloc_fixed_ops h1
        { insn with
            operands := insn.operands.set i (some p),
            alloc_operands := insn.alloc_operands + 1 }
        op_ascii_sz (i + 1) k'

/-- `opdis_insn_alloc_fixed` (model.c): allocate via `opdis_insn_alloc`,
`calloc` the `ascii`, `prefixes` (4 × mnemonic size), `mnemonic`, and
`comment` buffers, allocate `num_operands` fixed-size operands (each bumping
`alloc_operands` again), then set `fixed_size` and record the capacities in
the 8-bit fields (truncating mod 256). -/
def opdis_insn_alloc_fixed (h : OpHeap)
    (ascii_sz mnemonic_sz num_operands op_ascii_sz : Nat) : OpHeap × Insn :=
  let insn := opdis_insn_alloc num_operands
  let insn := { insn with
                  ascii := some (callocBuf ascii_sz),
                  prefixes := some (callocBuf (4 * mnemonic_sz)),
                  mnemonic := some (callocBuf mnemonic_sz),
                  comment := some (callocBuf ascii_sz) }
  let (h1, insn1) := insn_alloc_fixed_ops h insn op_ascii_sz 0 num_operands
  (h1, { insn1 with
           fixed_size := true,
           ascii_sz := ascii_sz % 256,
           mnemonic_sz := mnemonic_sz % 256 })

/-- The operand-duplication loop of `opdis_insn_dupe` (model.c, lines
119–130), running `k` more iterations from index `i` (the C loop condition
`i < insn->num_operands && i < new_insn->alloc_operands` makes `k` start at
the minimum of the two): each step dupes source operand `i`, stores the new
pointer in slot `i` of the duplicate, and increments its `num_operands`; a
failed dupe (invalid source pointer) aborts with no result. -/
def insn_dupe_ops (h : OpHeap) (insn acc : Insn) (i k : Nat) :
    OpHeap × Option Insn :=
  match k with
  | 0 => (h, some acc)
  | k' + 1 =>
      match insn.operands.getD i none with
      | none => (h, none)
      | some p =>
          match opdis_op_dupe h p with
          | (h1, none) => (h1, none)
          | (h1, some q) =>
              insn_dupe_ops h1 insn
                { acc with
                    operands := acc.operands.set i (some q),
                    num_operands := acc.num_operands + 1 }
                (i + 1) k'

/-- `opdis_insn_dupe` (model.c): allocate a fresh instruction with
`insn.num_operands` slots, `memcpy` the entire source struct over it (this
copies every scalar field — including `alloc_operands`, `num_prefixes`,
`fixed_size`, the capacity fields, the `comment` and `bytes` pointers, and the
`target`/`dest`/`src` pointers), restore the fresh operand array, NULL out
`ascii`/`mnemonic`/`prefixes`, re-`strdup` each of those that the source has
(re-assigning `num_prefixes`, already equal, in the prefixes branch), zero
`num_operands`, and run the operand-duplication loop. -/
def opdis_insn_dupe (h : OpHeap) (insn : Insn) : OpHeap × Option Insn :=
  let new0 := { insn with
                  operands := List.replicate insn.num_operands none,
                  ascii := insn.ascii.map strdupBuf,
                  prefixes := insn.prefixes.map strdupBuf,
                  mnemonic := insn.mnemonic.map strdupBuf,
                  num_operands := 0 }
  insn_dupe_ops h insn new0 0 (min insn.num_operands new0.alloc_operands)

/-- `opdis_insn_clear` (model.c): reset `status` to invalid, write a NUL into
the first byte of the `ascii`/`prefixes`/`mnemonic` buffers (when non-NULL),
zero `num_prefixes` and `num_operands`, and NULL the three accessor pointers.
`comment`, `alloc_operands`, and the operand slots are not touched. -/
def opdis_insn_clear (i : Insn) : Insn :=
  { i with
      status := opdis_decode_invalid,
      ascii := i.ascii.map (fun b => b.set 0 0),
      num_prefixes := 0,
      prefixes := i.prefixes.map (fun b => b.set 0 0),
      mnemonic := i.mnemonic.map (fun b => b.set 0 0),
      num_operands := 0,
      target := none, dest := none, src := none }

/-- `opdis_insn_set_mnemonic` (model.c): no-op on NULL arguments; fixed mode
`strncpy`s into the existing buffer with count `mnemonic_sz - 1` (C integer
arithmetic); dynamic mode replaces the owned string with a `strdup`. -/
def opdis_insn_set_mnemonic (i : Option Insn) (mnemonic : Option Str) :
    Option Insn :=
  match i, mnemonic with
  | none, _ => none
  | some insn, none => some insn
  | some insn, some s =>
      if insn.fixed_size then
        some { insn with
                 mnemonic := some (strncpyBuf (insn.mnemonic.getD []) s
                                     (u64 ((insn.mnemonic_sz : Int) - 1))) }
      else
        some { insn with mnemonic := some (s ++ [0]) }

/-- `opdis_insn_add_prefix` (model.c): no-op on NULL arguments.  Fixed mode
computes `size = PREFIX_SIZE(mnemonic_sz) - strlen(prefixes)` in `unsigned
int` arithmetic and `strncat`s a space separator (count `size - 1`) and then
the prefix (count `size - 2`).  Dynamic mode `realloc`s and `strcat`s a space
plus the prefix, or `calloc`s and `strcat`s just the prefix when there was
none (the model takes the success path of `realloc`/`calloc`). -/
def opdis_insn_add_prefix (i : Option Insn) (prefix_ : Option Str) :
    Option Insn :=
  match i, prefix_ with
  | none, _ => none
  | some insn, none => some insn
  | some insn, some s =>
      if insn.fixed_size then
        let buf := insn.prefixes.getD []
        let size := u32 ((4 * (insn.mnemonic_sz : Int)) - (cstr buf).length)
        some { insn with
                 prefixes := some (strncatBuf
                   (strncatBuf buf [32] (u32 ((size : Int) - 1)))
                   s (u32 ((size : Int) - 2))) }
      else
        match insn.prefixes with
        | some buf =>
            let buf1 := reallocBuf buf ((cstr buf).length + s.length + 2)
            some { insn with
                     prefixes := some (strcatBuf (strcatBuf buf1 [32]) s) }
        | none =>
            some { insn with
                     prefixes := some (strcatBuf (callocBuf (s.length + 1)) s) }

/-- `opdis_insn_add_comment` (model.c): no-op on NULL arguments.  Fixed mode
computes `size = ascii_sz - strlen(comment)` in `unsigned int` arithmetic and
`strncat`s a space separator (count `size - 1`) and then the comment (count
`size - 2`) — the separator here is a space, exactly as in
`opdis_insn_add_prefix`.  Dynamic mode `realloc`s and `strcat`s a `';'` plus
the comment, or `calloc`s and `strcat`s just the comment when there was
none. -/
def opdis_insn_add_comment (i : Option Insn) (cmt : Option Str) :
    Option Insn :=
  match i, cmt with
  | none, _ => none
  | some insn, none => some insn
  | some insn, some s =>
      if insn.fixed_size then
        let buf := insn.comment.getD []
        let size := u32 (((insn.ascii_sz : Int)) - (cstr buf).length)
        some { insn with
                 comment := some (strncatBuf
                   (strncatBuf buf [32] (u32 ((size : Int) - 1)))
                   s (u32 ((size : Int) - 2))) }
      else
        match insn.comment with
        | some buf =>
            let buf1 := reallocBuf buf ((cstr buf).length + s.length + 2)
            some { insn with
                     comment := some (strcatBuf (strcatBuf buf1 [59]) s) }
        | none =>
            some { insn with
                     comment := some (strcatBuf (callocBuf (s.length + 1)) s) }

/-- `opdis_insn_add_operand` (model.c): returns 0 on NULL arguments.  When
`num_operands < alloc_operands`, store the pointer in the next slot in place.
Otherwise increment `alloc_operands`, `realloc` the pointer array one slot
larger and insert; if the `realloc` fails (`realloc_ok = false`, the model's
allocation oracle), the increment is undone and 0 returned with the
instruction unchanged. -/
def opdis_insn_add_operand (realloc_ok : Bool) (i : Option Insn)
    (op : Option Nat) : Option Insn × Bool :=
  match i, op with
  | none, _ => (none, false)
  | some insn, none => (some insn, false)
  | some insn, some p =>
      if insn.num_operands < insn.alloc_operands then
        (some { insn with
                  operands := insn.operands.set insn.num_operands (some p),
                  num_operands := insn.num_operands + 1 }, true)
      else if realloc_ok then
        (some { insn with
                  alloc_operands := insn.alloc_operands + 1,
                  operands :=
                    (insn.operands ++ [none]).set insn.num_operands (some p),
                  num_operands := insn.num_operands + 1 }, true)
      else (some insn, false)

/-- `opdis_insn_is_branch` (model.c): 1 iff the instruction is non-NULL, its
category is control-flow, and its control-flow flag is call, conditional
call, jump, or conditional jump.  The `status` field is not consulted. -/
def opdis_insn_is_branch (i : Option Insn) : Bool :=
  match i with
  | none => false
  | some insn =>
      insn.category = InsnCat.cflow &&
        (insn.flags = CflowFlag.call || insn.flags = CflowFlag.callcc ||
         insn.flags = CflowFlag.jmp || insn.flags = CflowFlag.jmpcc)

/-- `opdis_insn_fallthrough` (model.c): 0 iff the instruction is non-NULL,
its category is control-flow, and its flag is return or jump; 1 otherwise. -/
def opdis_insn_fallthrough (i : Option Insn) : Bool :=
  match i with
  | none => true
  | some insn =>
      !(insn.category = InsnCat.cflow &&
        (insn.flags = CflowFlag.ret || insn.flags = CflowFlag.jmp))

/-! ### Basic facts about the byte-string model -/

theorem cstr_nil : cstr [] = [] := rfl

theorem cstr_cons_zero (l : Str) : cstr (0 :: l) = [] := rfl

theorem cstr_cons_ne (b : Nat) (hb : b ≠ 0) (l : Str) :
    cstr (b :: l) = b :: cstr l := by
  simp [cstr, List.takeWhile_cons, hb]

/-- Reading a buffer that starts with a clean string and then a NUL yields
exactly that string. -/
theorem cstr_append_zero (t : Str) (ht : ∀ b ∈ t, b ≠ 0) (rest : Str) :
    cstr (t ++ 0 :: rest) = t := by
  induction t with
  | nil => simp [cstr]
  | cons a l ih =>
      have ha : a ≠ 0 := ht a (by simp)
      simp only [List.cons_append, cstr_cons_ne a ha]
      have := ih (fun b hb => ht b (by simp [hb]))
      simp [cstr] at this ⊢
      exact this

/-- A stored string never contains a NUL byte. -/
theorem cstr_no_zero (buf : Str) : ∀ b ∈ cstr buf, b ≠ 0 := by
  intro b hb
  have := List.mem_takeWhile_imp hb
  simpa using this

theorem cstr_replicate_zero (n : Nat) : cstr (List.replicate n 0) = [] := by
  cases n with
  | zero => rfl
  | succ m => simp [List.replicate, cstr_cons_zero]

theorem cstr_strdupBuf (buf : Str) : cstr (strdupBuf buf) = cstr buf := by
  unfold strdupBuf
  exact cstr_append_zero (cstr buf) (cstr_no_zero buf) []

theorem cstr_set_head_zero (b : Str) : cstr (b.set 0 0) = [] := by
  cases b with
  | nil => rfl
  | cons a l => simp [List.set, cstr_cons_zero]

theorem strncpyBuf_length (dst src : Str) (n : Nat) :
    (strncpyBuf dst src n).length = dst.length := by
  unfold strncpyBuf
  simp [List.length_append, List.length_take, List.length_replicate]
  omega

/-! ### C3: `is_branch` -/

/-- The right-hand side of claim C3 as frozen: flag-decode status recorded,
control-flow category, and a call/jump flag. -/
def c3_claim_rhs (i : Insn) : Prop :=
  i.status &&& opdis_decode_mnem_flags ≠ 0 ∧ i.category = InsnCat.cflow ∧
    (i.flags = CflowFlag.call ∨ i.flags = CflowFlag.callcc ∨
     i.flags = CflowFlag.jmp ∨ i.flags = CflowFlag.jmpcc)

/-- C3 counterexample: an instruction whose status mask is
`opdis_decode_invalid` (no instruction-flag decoding recorded) but whose
category is control-flow with a jump flag is reported as a branch, so
`is_branch` is not equivalent to the frozen claim's right-hand side:
`opdis_insn_is_branch` never consults `status`. -/
theorem c3_counterexample :
    opdis_insn_is_branch
        (some { insnZero with category := InsnCat.cflow,
                              flags := CflowFlag.jmp }) = true ∧
      ¬ c3_claim_rhs { insnZero with category := InsnCat.cflow,
                                     flags := CflowFlag.jmp } := by
  constructor
  · rfl
  · intro h
    exact h.1 (by rfl)

/-- C3 (amended): `is_branch` returns true iff the category is control-flow
and the control-flow flag is call, conditional call, jump, or conditional
jump; the status mask is not consulted (on a NULL instruction it returns
false). -/
theorem c3_is_branch_amended :
    (∀ i : Insn,
        opdis_insn_is_branch (some i) = true ↔
          (i.category = InsnCat.cflow ∧
            (i.flags = CflowFlag.call ∨ i.flags = CflowFlag.callcc ∨
             i.flags = CflowFlag.jmp ∨ i.flags = CflowFlag.jmpcc))) ∧
      opdis_insn_is_branch none = false := by
  refine ⟨fun i => ?_, rfl⟩
  simp [opdis_insn_is_branch, Bool.and_eq_true, Bool.or_eq_true,
    decide_eq_true_eq, or_assoc]

/-! ### C7: `falls_through` -/

/-- C7: `falls_through` returns false exactly when the category is
control-flow and the flag is return or jump, and true in every other case —
the status mask is irrelevant (it is not read at all), default/invalid flag
values yield true, and a NULL instruction yields true. -/
theorem c7_fallthrough :
    (∀ i : Insn,
        opdis_insn_fallthrough (some i) = false ↔
          (i.category = InsnCat.cflow ∧
            (i.flags = CflowFlag.ret ∨ i.flags = CflowFlag.jmp))) ∧
      opdis_insn_fallthrough none = true := by
  refine ⟨fun i => ?_, rfl⟩
  simp only [opdis_insn_fallthrough, Bool.not_eq_false', Bool.and_eq_true,
    Bool.or_eq_true, decide_eq_true_eq]

/-! ### C10: `clear` does not touch `comment` -/

/-- C10: `clear` resets `status` to invalid, empties the stored
`ascii`/`prefixes`/`mnemonic` strings, zeroes `num_prefixes` and
`num_operands`, and unsets the three accessors, but leaves `comment` exactly
as it was; consequently an `add_comment` issued after a `clear` appends to
the stale comment text: it produces the very comment buffer it would have
produced without the intervening `clear`. -/
theorem c10_clear_comment (i : Insn) (t : Option Str) :
    (opdis_insn_clear i).comment = i.comment ∧
      (opdis_insn_clear i).status = opdis_decode_invalid ∧
      (opdis_insn_clear i).num_prefixes = 0 ∧
      (opdis_insn_clear i).num_operands = 0 ∧
      (opdis_insn_clear i).target = none ∧
      (opdis_insn_clear i).dest = none ∧
      (opdis_insn_clear i).src = none ∧
      ((opdis_insn_clear i).ascii).map cstr = i.ascii.map (fun _ => ([] : Str)) ∧
      ((opdis_insn_clear i).prefixes).map cstr =
        i.prefixes.map (fun _ => ([] : Str)) ∧
      ((opdis_insn_clear i).mnemonic).map cstr =
        i.mnemonic.map (fun _ => ([] : Str)) ∧
      (opdis_insn_add_comment (some (opdis_insn_clear i)) t).map
          (fun x => x.comment) =
        (opdis_insn_add_comment (some i) t).map (fun x => x.comment) := by
  refine ⟨rfl, rfl, rfl, rfl, rfl, rfl, rfl, ?_, ?_, ?_, ?_⟩
  · cases hA : i.ascii <;> simp [opdis_insn_clear, hA, cstr_set_head_zero]
  · cases hA : i.prefixes <;> simp [opdis_insn_clear, hA, cstr_set_head_zero]
  · cases hA : i.mnemonic <;> simp [opdis_insn_clear, hA, cstr_set_head_zero]
  · cases t with
    | none => rfl
    | some s =>
        cases hf : i.fixed_size <;>
          cases hc : i.comment <;>
            simp [opdis_insn_add_comment, opdis_insn_clear, hf, hc]

/-! ### C5: `add_operand` -/

/-- C5: `add_operand` appends the given operand pointer itself (no
duplication).  Below capacity it fills the next free slot in place — the
capacity, the array length, and every other slot are unchanged and the call
succeeds.  At capacity with a successful `realloc` it grows `alloc_operands`
by one, extends the pointer array by one slot, and inserts there.  At
capacity with a failed `realloc` it reports failure and leaves the
instruction completely unmodified.  In each case `num_operands` grows by one
exactly on success, so it counts the successful calls. -/
theorem c5_add_operand (ok : Bool) (i : Insn) (p : Nat)
    (hwf1 : i.num_operands ≤ i.alloc_operands)
    (hwf2 : i.alloc_operands = i.operands.length) :
    (i.num_operands < i.alloc_operands →
      ∃ j, opdis_insn_add_operand ok (some i) (some p) = (some j, true) ∧
        j.alloc_operands = i.alloc_operands ∧
        j.operands.length = i.operands.length ∧
        j.num_operands = i.num_operands + 1 ∧
        j.operands.getD i.num_operands none = some p ∧
        (∀ k, k ≠ i.num_operands →
          j.operands.getD k none = i.operands.getD k none)) ∧
    (i.num_operands = i.alloc_operands →
      ∃ j, opdis_insn_add_operand true (some i) (some p) = (some j, true) ∧
        j.alloc_operands = i.alloc_operands + 1 ∧
        j.operands = i.operands ++ [some p] ∧
        j.num_operands = i.num_operands + 1) ∧
    (i.num_operands = i.alloc_operands →
      opdis_insn_add_operand false (some i) (some p) = (some i, false)) := by
  refine ⟨fun hlt => ?_, fun heq => ?_, fun heq => ?_⟩
  · refine ⟨{ i with operands := i.operands.set i.num_operands (some p),
                     num_operands := i.num_operands + 1 },
      by simp [opdis_insn_add_operand, hlt], rfl,
      by simp [List.length_set], rfl, ?_, ?_⟩
    · have hn : i.num_operands < i.operands.length := by omega
      simp [List.getD_eq_getElem?_getD, List.getElem?_set_eq_of_lt _ hn]
    · intro k hk
      simp [List.getD_eq_getElem?_getD, List.getElem?_set_ne (Ne.symm hk)]
  · refine ⟨{ i with alloc_operands := i.alloc_operands + 1,
                     operands := i.operands ++ [some p],
                     num_operands := i.num_operands + 1 },
      ?_, rfl, rfl, rfl⟩
    simp [opdis_insn_add_operand, heq, hwf2, List.set_append, Nat.sub_self]
  · simp [opdis_insn_add_operand, heq]

/-- An instruction whose two allocated operand slots are both used, for
exercising the at-capacity cases of `add_operand`. -/
def fullInsn2 : Insn :=
  { insnZero with num_operands := 2, alloc_operands := 2,
                  operands := [some 3, some 4] }

/-- C5 witness: concrete runs of the three cases of `c5_add_operand` on an
instruction allocated for two operands (the spec's worked example): in-place
success below capacity, growth to three slots at capacity, and an unchanged
instruction when growth fails. -/
theorem c5_add_operand_witness :
    ((opdis_insn_alloc 2).num_operands ≤ (opdis_insn_alloc 2).alloc_operands ∧
      (opdis_insn_alloc 2).alloc_operands =
        (opdis_insn_alloc 2).operands.length) ∧
    ((fullInsn2.num_operands ≤ fullInsn2.alloc_operands ∧
      fullInsn2.alloc_operands = fullInsn2.operands.length) ∧
     ((fullInsn2.num_operands = fullInsn2.alloc_operands →
        ∃ j, opdis_insn_add_operand true (some fullInsn2) (some 9) =
            (some j, true) ∧
          j.alloc_operands = fullInsn2.alloc_operands + 1 ∧
          j.operands = fullInsn2.operands ++ [some 9] ∧
          j.num_operands = fullInsn2.num_operands + 1) ∧
      (fullInsn2.num_operands = fullInsn2.alloc_operands →
        opdis_insn_add_operand false (some fullInsn2) (some 9) =
          (some fullInsn2, false)))) ∧
    (∃ j, opdis_insn_add_operand true (some (opdis_insn_alloc 2)) (some 7) =
        (some j, true) ∧
      j.alloc_operands = (opdis_insn_alloc 2).alloc_operands ∧
      j.operands.length = (opdis_insn_alloc 2).operands.length ∧
      j.num_operands = (opdis_insn_alloc 2).num_operands + 1 ∧
      j.operands.getD (opdis_insn_alloc 2).num_operands none = some 7 ∧
      (∀ k, k ≠ (opdis_insn_alloc 2).num_operands →
        j.operands.getD k none = (opdis_insn_alloc 2).operands.getD k none)) :=
  ⟨⟨by decide, by decide⟩,
   ⟨⟨by decide, by decide⟩,
    ⟨(c5_add_operand true fullInsn2 9 (by decide) (by decide)).2.1,
     (c5_add_operand false fullInsn2 9 (by decide) (by decide)).2.2⟩⟩,
   (c5_add_operand true (opdis_insn_alloc 2) 7 (by decide) (by decide)).1
     (by decide)⟩

/-! ### C2: `alloc_fixed` -/

/-- The operand object `opdis_op_alloc_fixed` builds for a requested capacity
`o`: fixed-size, capacity recorded mod 256 in the 8-bit field, and a zeroed
`o`-byte ascii buffer. -/
def fixedOp (o : Nat) : Op :=
  { opZero with fixed_size := true, ascii_sz := o % 256,
                ascii := some (callocBuf o) }

theorem op_alloc_fixed_eq (h : OpHeap) (o : Nat) :
    opdis_op_alloc_fixed h o = (h ++ [fixedOp o], h.length) := by
  simp [opdis_op_alloc_fixed, opdis_op_alloc, fixedOp, List.set_append,
    Nat.sub_self]

/-- Behaviour of the operand-allocation loop of `opdis_insn_alloc_fixed`:
running `k` iterations from slot `i` appends `k` fixed operands to the heap,
adds `k` to `alloc_operands`, leaves every other field and every slot outside
`[i, i+k)` alone, and stores the freshly allocated pointers in slots
`[i, i+k)`. -/
theorem insn_alloc_fixed_ops_spec (o k : Nat) :
    ∀ (h : OpHeap) (insn : Insn) (i : Nat),
      (insn_alloc_fixed_ops h insn o i k).1 =
          h ++ List.replicate k (fixedOp o) ∧
      (insn_alloc_fixed_ops h insn o i k).2.alloc_operands =
          insn.alloc_operands + k ∧
      (insn_alloc_fixed_ops h insn o i k).2.num_operands =
          insn.num_operands ∧
      (insn_alloc_fixed_ops h insn o i k).2.target = insn.target ∧
      (insn_alloc_fixed_ops h insn o i k).2.dest = insn.dest ∧
      (insn_alloc_fixed_ops h insn o i k).2.src = insn.src ∧
      (insn_alloc_fixed_ops h insn o i k).2.operands.length =
          insn.operands.length ∧
      (∀ j, j < i ∨ i + k ≤ j →
        ((insn_alloc_fixed_ops h insn o i k).2.operands)[j]? =
          insn.operands[j]?) ∧
      (∀ j, i ≤ j → j < i + k → j < insn.operands.length →
        ((insn_alloc_fixed_ops h insn o i k).2.operands)[j]? =
          some (some (h.length + (j - i)))) := by
  induction k with
  | zero =>
      intro h insn i
      exact ⟨by simp [insn_alloc_fixed_ops], rfl, rfl, rfl, rfl, rfl,
        rfl, fun j _ => rfl, fun j h1 h2 _ => by omega⟩
  | succ k ih =>
      intro h insn i
      have step : insn_alloc_fixed_ops h insn o i (k + 1) =
          insn_alloc_fixed_ops (h ++ [fixedOp o])
            { insn with operands := insn.operands.set i (some h.length),
                        alloc_operands := insn.alloc_operands + 1 }
            o (i + 1) k := by
        simp [insn_alloc_fixed_ops, op_alloc_fixed_eq]
      obtain ⟨e1, e2, e3, e4, e5, e6, e7, e8, e9⟩ :=
        ih (h ++ [fixedOp o])
          { insn with operands := insn.operands.set i (some h.length),
                      alloc_operands := insn.alloc_operands + 1 } (i + 1)
      rw [step]
      refine ⟨?_, ?_, e3, e4, e5, e6, ?_, ?_, ?_⟩
      · rw [e1, List.replicate_succ]
        simp
      · rw [e2]
        show insn.alloc_operands + 1 + k = insn.alloc_operands + (k + 1)
        omega
      · rw [e7]; simp [List.length_set]
      · intro j hj
        have hji : i ≠ j := by omega
        rw [e8 j (by omega)]
        simp [List.getElem?_set_ne hji]
      · intro j hj1 hj2 hj3
        rcases Nat.eq_or_lt_of_le hj1 with hji | hji
        · rw [e8 j (by omega), ← hji]
          have hi : i < insn.operands.length := by omega
          simp [List.getElem?_set_eq_of_lt _ hi]
        · have e9' := e9 j (by omega) (by omega)
            (by simpa [List.length_set] using hj3)
          rw [e9']
          have harith : (h ++ [fixedOp o]).length + (j - (i + 1)) =
              h.length + (j - i) := by
            simp [List.length_append]
            omega
          rw [harith]

/-- C2 counterexample: the claim asserts `num_operands == n == alloc_operands`
after `allocate_fixed(a, m, n, o)`; at `n = 1` the code instead leaves
`num_operands` at 0 and double-counts `alloc_operands` to 2
(`opdis_insn_alloc` already records the capacity and the allocation loop of
`opdis_insn_alloc_fixed` increments it again per operand). -/
theorem c2_counterexample :
    ¬((opdis_insn_alloc_fixed [] 4 2 1 4).2.num_operands = 1 ∧
      (opdis_insn_alloc_fixed [] 4 2 1 4).2.alloc_operands = 1) ∧
    (opdis_insn_alloc_fixed [] 4 2 1 4).2.num_operands = 0 ∧
    (opdis_insn_alloc_fixed [] 4 2 1 4).2.alloc_operands = 2 := by
  refine ⟨fun hc => ?_, by decide, by decide⟩
  have : (1 : Nat) = 0 := by
    rw [← hc.1]; decide
  exact absurd this (by decide)

/-- C2 (amended): a successful `allocate_fixed(a, m, n, o)` yields a
fixed-size instruction whose `num_operands` is 0 and whose `alloc_operands`
is `2 * n` (the capacity is recorded once by `opdis_insn_alloc` and
incremented again for every operand allocated by the loop), with an operand
pointer array of exactly `n` slots, each slot populated with a distinct
freshly allocated operand that is itself fixed-size with an `o`-byte ascii
buffer and recorded ascii capacity `o mod 256`. -/
theorem c2_alloc_fixed (h : OpHeap) (a m n o : Nat) :
    (opdis_insn_alloc_fixed h a m n o).2.fixed_size = true ∧
    (opdis_insn_alloc_fixed h a m n o).2.num_operands = 0 ∧
    (opdis_insn_alloc_fixed h a m n o).2.alloc_operands = 2 * n ∧
    (opdis_insn_alloc_fixed h a m n o).2.operands.length = n ∧
    (∀ j, j < n →
      ((opdis_insn_alloc_fixed h a m n o).2.operands)[j]? =
          some (some (h.length + j)) ∧
        ((opdis_insn_alloc_fixed h a m n o).1)[h.length + j]? =
          some (fixedOp o) ∧
        (fixedOp o).fixed_size = true ∧ (fixedOp o).ascii_sz = o % 256 ∧
        (fixedOp o).ascii = some (callocBuf o)) := by
  obtain ⟨e1, e2, e3, e4, e5, e6, e7, e8, e9⟩ :=
    insn_alloc_fixed_ops_spec o n h
      { opdis_insn_alloc n with
          ascii := some (callocBuf a),
          prefixes := some (callocBuf (4 * m)),
          mnemonic := some (callocBuf m),
          comment := some (callocBuf a) } 0
  refine ⟨by simp [opdis_insn_alloc_fixed], ?_, ?_, ?_,
    fun j hj => ⟨?_, ?_, rfl, rfl, rfl⟩⟩
  · show (insn_alloc_fixed_ops _ _ _ _ _).2.num_operands = 0
    rw [e3]; rfl
  · show (insn_alloc_fixed_ops _ _ _ _ _).2.alloc_operands = 2 * n
    rw [e2]; show n + n = 2 * n; omega
  · show (insn_alloc_fixed_ops _ _ _ _ _).2.operands.length = n
    rw [e7]; simp [opdis_insn_alloc]
  · show ((insn_alloc_fixed_ops _ _ _ _ _).2.operands)[j]? =
        some (some (h.length + j))
    have := e9 j (by omega) (by omega) (by simp [opdis_insn_alloc]; omega)
    simpa using this
  · show ((insn_alloc_fixed_ops _ _ _ _ _).1)[h.length + j]? = some (fixedOp o)
    rw [e1, List.getElem?_append_right (by omega)]
    simp [List.getElem?_replicate, hj]

/-- C2 witness: the amended statement evaluated at `allocate_fixed` of a
two-operand fixed instruction, with the per-slot clause discharged at slot
1. -/
theorem c2_alloc_fixed_witness :
    (1 < 2) ∧
    (((opdis_insn_alloc_fixed [] 3 2 2 5).2.operands)[1]? = some (some 1) ∧
      ((opdis_insn_alloc_fixed [] 3 2 2 5).1)[1]? = some (fixedOp 5) ∧
      (fixedOp 5).fixed_size = true ∧ (fixedOp 5).ascii_sz = 5 % 256 ∧
      (fixedOp 5).ascii = some (callocBuf 5)) ∧
    (opdis_insn_alloc_fixed [] 3 2 2 5).2.alloc_operands = 2 * 2 :=
  ⟨by decide, by simpa using (c2_alloc_fixed [] 3 2 2 5).2.2.2.2 1 (by decide),
    (c2_alloc_fixed [] 3 2 2 5).2.2.1⟩

/-! ### `strncpy` facts, for C4 and C9 -/

theorem u64_coe_sub_one (c : Nat) (h0 : 0 < c) (h1 : c < 2 ^ 64) :
    u64 ((c : Int) - 1) = c - 1 := by
  unfold u64
  have hlit : (2 ^ 64 : Int) = 18446744073709551616 := by norm_num
  have hlit' : (2 ^ 64 : Nat) = 18446744073709551616 := by norm_num
  rw [hlit]
  rw [hlit'] at h1
  rw [Int.emod_eq_of_lt (by omega) (by omega)]
  omega

/-- When the count is below the buffer length and every byte from position
`n` on is NUL, `strncpy` leaves exactly the first `n` source bytes stored. -/
theorem cstr_strncpyBuf_lt (dst t : Str) (n : Nat)
    (ht : ∀ b ∈ t, b ≠ 0) (hn : n < dst.length)
    (htail : ∀ b ∈ dst.drop n, b = 0) :
    cstr (strncpyBuf dst t n) = t.take n := by
  unfold strncpyBuf
  have hk : min n dst.length = n := by omega
  rw [hk]
  rcases Nat.lt_or_ge t.length n with hlen | hlen
  · have htake : t.take n = t := List.take_of_length_le (by omega)
    have hrep : n - t.length = (n - t.length - 1) + 1 := by omega
    rw [htake, hrep, List.replicate_succ]
    have : (t ++ 0 :: List.replicate (n - t.length - 1) 0) ++ dst.drop n =
        t ++ 0 :: (List.replicate (n - t.length - 1) 0 ++ dst.drop n) := by
      simp
    rw [this, cstr_append_zero t ht]
  · have hrep : n - t.length = 0 := by omega
    rw [hrep]
    cases hd : dst.drop n with
    | nil =>
        exfalso
        have := List.length_drop n dst
        rw [hd] at this
        simp at this
        omega
    | cons b rest =>
        have hb : b = 0 := htail b (by rw [hd]; exact List.mem_cons_self b rest)
        subst hb
        simp only [List.replicate, List.append_nil]
        exact cstr_append_zero (t.take n)
          (fun x hx => ht x (List.mem_of_mem_take hx)) rest

/-- When the count reaches (or exceeds) the buffer length and the source
string is shorter than the buffer, `strncpy` stores the whole source string:
no truncation happens (the write itself runs past the buffer whenever the
count exceeds its length). -/
theorem cstr_strncpyBuf_ge (dst t : Str) (n : Nat)
    (ht : ∀ b ∈ t, b ≠ 0) (hn : dst.length ≤ n)
    (hlen : t.length < dst.length) :
    cstr (strncpyBuf dst t n) = t := by
  unfold strncpyBuf
  have hk : min n dst.length = dst.length := by omega
  rw [hk]
  have htake : t.take dst.length = t := List.take_of_length_le (by omega)
  have hrep : dst.length - t.length = (dst.length - t.length - 1) + 1 := by
    omega
  rw [htake, hrep, List.replicate_succ, List.drop_length]
  have : (t ++ 0 :: List.replicate (dst.length - t.length - 1) 0) ++ [] =
      t ++ 0 :: List.replicate (dst.length - t.length - 1) 0 := by simp
  rw [this, cstr_append_zero t ht]

/-- The bytes from position `n` on are untouched by an in-bounds
`strncpy`. -/
theorem strncpyBuf_drop (dst t : Str) (n : Nat) (hn : n ≤ dst.length) :
    (strncpyBuf dst t n).drop n = dst.drop n := by
  unfold strncpyBuf
  have hk : min n dst.length = n := by omega
  rw [hk]
  have hw : (t.take n ++ List.replicate (n - t.length) 0).length = n := by
    simp [List.length_take, List.length_replicate]
    omega
  exact List.drop_left' hw

/-! ### C4: `set_ascii` on operands -/

/-- C4: with a positive recorded capacity `c` (the 8-bit field, hence
`c < 256`), a buffer of at least `c` bytes whose tail from position `c-1` on
is NUL (true of a fresh `opdis_op_alloc_fixed` buffer and preserved by every
`set_ascii`), `set_ascii` on a fixed-size operand stores exactly the first
`c-1` bytes of the text, NUL-terminated inside an unchanged-size buffer, with
the `strncpy` write staying in bounds and the capacity not growing; on a
non-fixed operand it replaces the owned string with a fresh copy of the text;
and it is a silent no-op when the operand or the text is absent. -/
theorem c4_op_set_ascii :
    (∀ (op : Op) (c : Nat) (buf t : Str),
      op.fixed_size = true → op.ascii_sz = c → 0 < c → c < 256 →
      op.ascii = some buf → c ≤ buf.length →
      (∀ b ∈ buf.drop (c - 1), b = 0) →
      (∀ b ∈ t, b ≠ 0) →
      ∃ o2 buf2, opdis_op_set_ascii (some op) (some t) = some o2 ∧
        o2.ascii = some buf2 ∧
        o2.fixed_size = true ∧ o2.ascii_sz = c ∧
        buf2.length = buf.length ∧
        strncpyInBounds buf (u64 ((c : Int) - 1)) = true ∧
        cstr buf2 = t.take (c - 1) ∧
        (cstr buf2).length ≤ c - 1 ∧
        (cstr buf2).length < buf2.length ∧
        (∀ b ∈ buf2.drop (c - 1), b = 0)) ∧
    (∀ (op : Op) (t : Str), op.fixed_size = false →
      opdis_op_set_ascii (some op) (some t) =
        some { op with ascii := some (t ++ [0]) }) ∧
    (∀ t, opdis_op_set_ascii none t = none) ∧
    (∀ op, opdis_op_set_ascii (some op) none = some op) := by
  refine ⟨?_, ?_, fun t => rfl, fun op => rfl⟩
  · intro op c buf t hfix hsz hc0 hc256 hbuf hblen htail ht
    have hn : u64 ((c : Int) - 1) = c - 1 :=
      u64_coe_sub_one c hc0 (by norm_num; omega)
    have hlt : c - 1 < buf.length := by omega
    refine ⟨{ op with ascii := some (strncpyBuf buf t (c - 1)) },
      strncpyBuf buf t (c - 1), ?_, rfl, hfix, hsz,
      strncpyBuf_length buf t (c - 1), ?_,
      cstr_strncpyBuf_lt buf t (c - 1) ht hlt htail, ?_, ?_, ?_⟩
    · simp [opdis_op_set_ascii, hfix, hbuf, hsz, hn]
    · simp [strncpyInBounds, hn]
      omega
    · rw [cstr_strncpyBuf_lt buf t (c - 1) ht hlt htail]
      simp [List.length_take]
    · rw [cstr_strncpyBuf_lt buf t (c - 1) ht hlt htail,
        strncpyBuf_length buf t (c - 1)]
      simp [List.length_take]
      omega
    · rw [strncpyBuf_drop buf t (c - 1) (by omega)]
      exact htail
  · intro op t hfix
    simp [opdis_op_set_ascii, hfix]

/-- C4 witness: the fixed case run on a freshly allocated capacity-4 operand
with a 9-byte text (capacity + 5, the claim's boundary case), and the
dynamic and no-op cases at concrete operands. -/
theorem c4_op_set_ascii_witness :
    ((fixedOp 4).fixed_size = true ∧ (fixedOp 4).ascii_sz = 4 ∧
      (0 < 4 ∧ (4 : Nat) < 256) ∧ (fixedOp 4).ascii = some (callocBuf 4) ∧
      4 ≤ (callocBuf 4).length ∧
      (∀ b ∈ (callocBuf 4).drop 3, b = 0) ∧
      (∀ b ∈ [65, 66, 67, 68, 69, 70, 71, 72, 73], b ≠ 0)) ∧
    (∃ o2 buf2,
      opdis_op_set_ascii (some (fixedOp 4))
          (some [65, 66, 67, 68, 69, 70, 71, 72, 73]) = some o2 ∧
      o2.ascii = some buf2 ∧
      o2.fixed_size = true ∧ o2.ascii_sz = 4 ∧
      buf2.length = (callocBuf 4).length ∧
      strncpyInBounds (callocBuf 4) (u64 ((4 : Int) - 1)) = true ∧
      cstr buf2 = [65, 66, 67, 68, 69, 70, 71, 72, 73].take 3 ∧
      (cstr buf2).length ≤ 3 ∧
      (cstr buf2).length < buf2.length ∧
      (∀ b ∈ buf2.drop 3, b = 0)) ∧
    opdis_op_set_ascii (some opZero) (some [65]) =
      some { opZero with ascii := some [65, 0] } :=
  ⟨⟨rfl, rfl, ⟨by decide, by decide⟩, rfl, by decide, by decide, by decide⟩,
    c4_op_set_ascii.1 (fixedOp 4) 4 (callocBuf 4)
      [65, 66, 67, 68, 69, 70, 71, 72, 73] rfl rfl (by decide) (by decide)
      rfl (by decide) (by decide) (by decide),
    c4_op_set_ascii.2.1 opZero [65] rfl⟩

/-! ### C9: 8-bit capacity fields -/

set_option maxRecDepth 4000

theorem u64_neg_one : u64 ((0 : Int) - 1) = 2 ^ 64 - 1 := by decide

/-- C9 counterexample: the claim asserts that for a requested capacity
`c ≥ 256` a fixed-mode `set_ascii` truncates the stored string to at most
`(c mod 256) - 1` characters; at `c = 256` the recorded capacity is 0, the
`strncpy` count `ascii_sz - 1` wraps around to `2^64 - 1`, and a 3-byte text
is stored in full — 3 characters, exceeding the claimed bound
`256 mod 256 - 1`. -/
theorem c9_counterexample :
    (opdis_op_set_ascii
          (some ((opdis_op_alloc_fixed [] 256).1.getD 0 opZero))
          (some [97, 98, 99])).map (fun o => cstr (o.ascii.getD [])) =
        some [97, 98, 99] ∧
      ¬ (([97, 98, 99] : Str).length ≤ 256 % 256 - 1) := by
  constructor
  · decide
  · decide

/-- C9 (amended): the fixed-size allocators record capacities in 8-bit
fields, so the recorded capacity is the request mod 256 (for the operand
`ascii_sz` and the instruction `ascii_sz`/`mnemonic_sz` alike).  For
`c ≥ 256` with `c mod 256 ≥ 1`, a later fixed-mode `set_ascii` (and
`set_mnemonic`) truncates the stored string to at most `(c mod 256) - 1`
characters even though the allocated buffer holds `c` bytes; but when
`c mod 256 = 0` the count `ascii_sz - 1` wraps around to `2^64 - 1`, the
`strncpy` write is no longer bounded by the buffer, and a text shorter than
the buffer is stored whole, with no truncation at all. -/
theorem c9_capacity_mod_256 :
    (∀ (h : OpHeap) (a m n o : Nat),
      opdis_op_alloc_fixed h o = (h ++ [fixedOp o], h.length) ∧
      (fixedOp o).ascii_sz = o % 256 ∧
      (fixedOp o).ascii = some (callocBuf o) ∧
      (opdis_insn_alloc_fixed h a m n o).2.ascii_sz = a % 256 ∧
      (opdis_insn_alloc_fixed h a m n o).2.mnemonic_sz = m % 256) ∧
    (∀ (c : Nat) (t : Str), 256 ≤ c → 1 ≤ c % 256 → (∀ b ∈ t, b ≠ 0) →
      ∃ o2 buf2, opdis_op_set_ascii (some (fixedOp c)) (some t) = some o2 ∧
        o2.ascii = some buf2 ∧ buf2.length = c ∧
        cstr buf2 = t.take (c % 256 - 1) ∧
        (cstr buf2).length ≤ c % 256 - 1) ∧
    (∀ (c : Nat) (t : Str), 256 ≤ c → c % 256 = 0 → c < 2 ^ 64 →
      t.length < c → (∀ b ∈ t, b ≠ 0) →
      ∃ o2 buf2, opdis_op_set_ascii (some (fixedOp c)) (some t) = some o2 ∧
        o2.ascii = some buf2 ∧ cstr buf2 = t ∧
        strncpyInBounds (callocBuf c) (u64 (((c % 256 : Nat) : Int) - 1)) =
          false) ∧
    (∀ (c : Nat) (t : Str), 256 ≤ c → 1 ≤ c % 256 → (∀ b ∈ t, b ≠ 0) →
      ∃ i2 buf2,
        opdis_insn_set_mnemonic
            (some { insnZero with fixed_size := true,
                                  mnemonic_sz := c % 256,
                                  mnemonic := some (callocBuf c) })
            (some t) = some i2 ∧
        i2.mnemonic = some buf2 ∧ buf2.length = c ∧
        cstr buf2 = t.take (c % 256 - 1)) := by
  have hdroprep : ∀ (c k : Nat) (b : Nat), b ∈ (callocBuf c).drop k → b = 0 := by
    intro c k b hb
    rw [callocBuf, List.drop_replicate] at hb
    exact (List.eq_of_mem_replicate hb)
  refine ⟨?_, ?_, ?_, ?_⟩
  · intro h a m n o
    exact ⟨op_alloc_fixed_eq h o, rfl, rfl,
      by simp [opdis_insn_alloc_fixed], by simp [opdis_insn_alloc_fixed]⟩
  · intro c t hc hr ht
    have hn : u64 ((c : Int) % 256 - 1) = c % 256 - 1 := by
      rw [show ((c : Int) % 256) = ((c % 256 : Nat) : Int) by push_cast; ring]
      exact u64_coe_sub_one (c % 256) (by omega) (by norm_num; omega)
    have hlen : (callocBuf c).length = c := by simp [callocBuf]
    have hlt : c % 256 - 1 < (callocBuf c).length := by
      rw [hlen]
      have : c % 256 < 256 := Nat.mod_lt _ (by omega)
      omega
    refine ⟨{ fixedOp c with
                ascii := some (strncpyBuf (callocBuf c) t (c % 256 - 1)) },
      strncpyBuf (callocBuf c) t (c % 256 - 1), ?_, rfl, ?_, ?_, ?_⟩
    · simp [opdis_op_set_ascii, fixedOp]
      rw [hn]
    · rw [strncpyBuf_length, hlen]
    · exact cstr_strncpyBuf_lt (callocBuf c) t (c % 256 - 1) ht hlt
        (fun b hb => hdroprep c (c % 256 - 1) b hb)
    · rw [cstr_strncpyBuf_lt (callocBuf c) t (c % 256 - 1) ht hlt
        (fun b hb => hdroprep c (c % 256 - 1) b hb)]
      simp [List.length_take]
  · intro c t hc hr h64 htlen ht
    have hn : u64 ((c : Int) % 256 - 1) = 2 ^ 64 - 1 := by
      rw [show ((c : Int) % 256) = ((c % 256 : Nat) : Int) by push_cast; ring,
        hr]
      exact u64_neg_one
    have hlen : (callocBuf c).length = c := by simp [callocBuf]
    refine ⟨{ fixedOp c with
                ascii := some (strncpyBuf (callocBuf c) t (2 ^ 64 - 1)) },
      strncpyBuf (callocBuf c) t (2 ^ 64 - 1), ?_, rfl, ?_, ?_⟩
    · simp [opdis_op_set_ascii, fixedOp]
      rw [hn]
      norm_num
    · exact cstr_strncpyBuf_ge (callocBuf c) t (2 ^ 64 - 1) ht
        (by rw [hlen]; omega) (by rw [hlen]; omega)
    · rw [show u64 (((c % 256 : Nat) : Int) - 1) = 2 ^ 64 - 1 by
        rw [hr]; exact u64_neg_one]
      simp [strncpyInBounds, hlen]
      omega
  · intro c t hc hr ht
    have hn : u64 (((c % 256 : Nat) : Int) - 1) = c % 256 - 1 :=
      u64_coe_sub_one (c % 256) (by omega) (by norm_num; omega)
    have hlen : (callocBuf c).length = c := by simp [callocBuf]
    have hlt : c % 256 - 1 < (callocBuf c).length := by
      rw [hlen]
      have : c % 256 < 256 := Nat.mod_lt _ (by omega)
      omega
    refine ⟨({ insnZero with fixed_size := true, mnemonic_sz := c % 256, mnemonic := some (strncpyBuf (callocBuf c) t (c % 256 - 1)) } : Insn),
      strncpyBuf (callocBuf c) t (c % 256 - 1), ?_, rfl, ?_, ?_⟩
    · simp only [opdis_insn_set_mnemonic, if_true, Option.getD_some]
      rw [hn]
    · rw [strncpyBuf_length, hlen]
    · exact cstr_strncpyBuf_lt (callocBuf c) t (c % 256 - 1) ht hlt
        (fun b hb => hdroprep c (c % 256 - 1) b hb)

/-- C9 witness: the truncation clause at requested capacity 260
(recorded 4, 5-byte text stored as its first 3 bytes) and the wraparound
clause at requested capacity 256 (3-byte text stored whole, unbounded
write). -/
theorem c9_capacity_mod_256_witness :
    ((256 ≤ 260 ∧ 1 ≤ 260 % 256 ∧ ∀ b ∈ [7, 7, 7, 7, 7], b ≠ (0 : Nat)) ∧
      ∃ o2 buf2,
        opdis_op_set_ascii (some (fixedOp 260)) (some [7, 7, 7, 7, 7]) =
            some o2 ∧
          o2.ascii = some buf2 ∧ buf2.length = 260 ∧
          cstr buf2 = ([7, 7, 7, 7, 7] : Str).take (260 % 256 - 1) ∧
          (cstr buf2).length ≤ 260 % 256 - 1) ∧
    ((256 ≤ 256 ∧ 256 % 256 = 0 ∧ 256 < 2 ^ 64 ∧
        ([97, 98, 99] : Str).length < 256 ∧
        ∀ b ∈ [97, 98, 99], b ≠ (0 : Nat)) ∧
      ∃ o2 buf2,
        opdis_op_set_ascii (some (fixedOp 256)) (some [97, 98, 99]) =
            some o2 ∧
          o2.ascii = some buf2 ∧ cstr buf2 = [97, 98, 99] ∧
          strncpyInBounds (callocBuf 256)
            (u64 (((256 % 256 : Nat) : Int) - 1)) = false) :=
  ⟨⟨⟨by decide, by decide, by decide⟩,
    c9_capacity_mod_256.2.1 260 [7, 7, 7, 7, 7] (by decide) (by decide)
      (by decide)⟩,
   ⟨⟨by decide, by decide, by norm_num, by decide, by decide⟩,
    c9_capacity_mod_256.2.2.1 256 [97, 98, 99] (by decide) (by decide)
      (by norm_num) (by decide) (by decide)⟩⟩

/-! ### `strcat` / `realloc` facts, for C8 -/

/-- Reading stops at a NUL regardless of what follows it. -/
theorem cstr_append_zero_cons (a r : Str) : cstr (a ++ 0 :: r) = cstr a := by
  induction a with
  | nil => rfl
  | cons b l ih =>
      by_cases hb : b = 0
      · subst hb
        rw [List.cons_append, cstr_cons_zero, cstr_cons_zero]
      · rw [List.cons_append, cstr_cons_ne b hb, cstr_cons_ne b hb, ih]

/-- Truncating a buffer after its stored string's terminator does not change
the stored string. -/
theorem cstr_take (buf : Str) (n : Nat) (h : (cstr buf).length < n) :
    cstr (buf.take n) = cstr buf := by
  induction buf generalizing n with
  | nil => simp
  | cons b l ih =>
      cases n with
      | zero => exact absurd h (by omega)
      | succ m =>
          by_cases hb : b = 0
          · subst hb
            rw [List.take_succ_cons, cstr_cons_zero, cstr_cons_zero]
          · rw [List.take_succ_cons, cstr_cons_ne b hb, cstr_cons_ne b hb]
            rw [cstr_cons_ne b hb] at h
            rw [ih m (by simp at h; omega)]

/-- `realloc` to any size larger than the stored string preserves the stored
string. -/
theorem cstr_reallocBuf (buf : Str) (n : Nat) (h : (cstr buf).length < n) :
    cstr (reallocBuf buf n) = cstr buf := by
  unfold reallocBuf
  rcases le_or_lt buf.length n with hle | hlt
  · rw [List.take_of_length_le (by simp; omega)]
    rcases Nat.eq_or_lt_of_le hle with heq | hlt'
    · rw [← heq, Nat.sub_self]
      simp
    · have : n - buf.length = (n - buf.length - 1) + 1 := by omega
      rw [this, List.replicate_succ, cstr_append_zero_cons]
  · have : n - buf.length = 0 := by omega
    rw [this]
    simp only [List.replicate, List.append_nil]
    exact cstr_take buf n h

/-- `strcat` appends the NUL-free source after the stored string of the
destination. -/
theorem cstr_strcatBuf (dst src : Str) (hsrc : ∀ b ∈ src, b ≠ 0) :
    cstr (strcatBuf dst src) = cstr dst ++ src := by
  unfold strcatBuf
  have hre : (cstr dst ++ src ++ [0]) ++
      dst.drop (cstr dst ++ src ++ [0]).length =
      (cstr dst ++ src) ++ 0 :: dst.drop (cstr dst ++ src ++ [0]).length := by
    simp
  rw [hre, cstr_append_zero_cons]
  have : ∀ b ∈ cstr dst ++ src, b ≠ 0 := by
    intro b hb
    rcases List.mem_append.1 hb with h1 | h2
    · exact cstr_no_zero dst b h1
    · exact hsrc b h2
  have hfix := cstr_append_zero (cstr dst ++ src) this []
  simpa using (cstr_append_zero_cons (cstr dst ++ src) []).symm ▸ (by
    have : cstr ((cstr dst ++ src) ++ 0 :: ([] : Str)) = cstr dst ++ src := by
      simpa using hfix
    simpa using this)

/-! ### C8: `add_comment` -/

/-- A fixed-size instruction with an 8-byte comment buffer, for the C8
counterexample. -/
def fixedCmtInsn : Insn :=
  { insnZero with fixed_size := true, ascii_sz := 8,
                  comment := some (callocBuf 8) }

/-- C8 counterexample: on a fixed-size instruction (fresh 8-byte comment
buffer), `add_comment('a')` then `add_comment('b')` stores `" a b"`
(bytes 32 97 32 98): in fixed mode the separator is a space — written even
before the first comment — not the `';'` the claim states, so the claimed
result `"a;b"` (bytes 97 59 98) is not produced. -/
theorem c8_counterexample :
    (opdis_insn_add_comment
          (opdis_insn_add_comment (some fixedCmtInsn) (some [97]))
          (some [98])).map (fun x => x.comment.map cstr) =
        some (some [32, 97, 32, 98]) ∧
      ([32, 97, 32, 98] : Str) ≠ [97, 59, 98] := by
  constructor
  · decide
  · decide

/-- C8 (amended): `add_comment` follows the same growth policy as
`add_prefix`.  In dynamic mode it reallocates and concatenates, joining
successive comments with `';'`: the first comment is stored as is, and each
later one is appended after a `';'` — two calls with `'a'` then `'b'` on a
dynamic instruction yield `"a;b"`.  In fixed mode it is structurally
identical to `add_prefix`'s fixed path, appending a space separator (even
before the first comment) and then the text, truncating to the remaining
capacity — the `';'` separator is used only in dynamic mode. -/
theorem c8_add_comment :
    (∀ (i : Insn) (t : Str), i.fixed_size = false → i.comment = none →
      (∀ b ∈ t, b ≠ 0) →
      ∃ i2, opdis_insn_add_comment (some i) (some t) = some i2 ∧
        i2.comment.isSome = true ∧ cstr (i2.comment.getD []) = t) ∧
    (∀ (i : Insn) (buf t : Str), i.fixed_size = false → i.comment = some buf →
      (∀ b ∈ t, b ≠ 0) →
      ∃ i2, opdis_insn_add_comment (some i) (some t) = some i2 ∧
        cstr (i2.comment.getD []) = cstr buf ++ 59 :: t) ∧
    ((opdis_insn_add_comment
        (opdis_insn_add_comment (some insnZero) (some [97]))
        (some [98])).map (fun x => x.comment) = some (some [97, 59, 98, 0])) ∧
    (∀ (i j : Insn) (t : Str), i.fixed_size = true → j.fixed_size = true →
      i.comment = j.prefixes → i.ascii_sz = 4 * j.mnemonic_sz →
      (opdis_insn_add_comment (some i) (some t)).map (fun x => x.comment) =
        ( opdis_insn_add_prefix (some j) (some t)).map (fun x => x.prefixes)) := by
  refine ⟨?_, ?_, by decide, ?_⟩
  · intro i t hfix hcmt ht
    refine ⟨{ i with comment := some (strcatBuf (callocBuf (t.length + 1)) t) },
      ?_, rfl, ?_⟩
    · simp [opdis_insn_add_comment, hfix, hcmt]
    · simp only [Option.getD_some]
      rw [cstr_strcatBuf (callocBuf (t.length + 1)) t ht, callocBuf,
        cstr_replicate_zero]
      simp
  · intro i buf t hfix hcmt ht
    refine ⟨{ i with comment := some (strcatBuf (strcatBuf (reallocBuf buf ((cstr buf).length + t.length + 2)) [59]) t) },
      ?_, ?_⟩
    · simp [opdis_insn_add_comment, hfix, hcmt]
    · simp only [Option.getD_some]
      rw [cstr_strcatBuf _ t ht,
        cstr_strcatBuf _ [59] (by intro b hb; simp at hb; omega),
        cstr_reallocBuf buf _ (by omega)]
      simp
  · intro i j t hfixi hfixj hcp hsz
    have hszc : ((i.ascii_sz : Int)) = 4 * (j.mnemonic_sz : Int) := by
      rw [hsz]; push_cast; ring
    simp [opdis_insn_add_comment, opdis_insn_add_prefix, hfixi, hfixj, hcp,
      hszc]

/-- A dynamic instruction whose comment buffer already stores `"a"`. -/
def dynCmtInsn : Insn := { insnZero with comment := some [97, 0] }

/-- C8 witness: the dynamic-mode clauses instantiated — an empty-comment
instruction receiving `'x'`, and an instruction whose comment buffer stores
`"a"` receiving `'b'` (yielding `"a;b"`). -/
theorem c8_add_comment_witness :
    ((insnZero.fixed_size = false ∧ insnZero.comment = none ∧
        ∀ b ∈ [120], b ≠ (0 : Nat)) ∧
      ∃ i2, opdis_insn_add_comment (some insnZero) (some [120]) = some i2 ∧
        i2.comment.isSome = true ∧ cstr (i2.comment.getD []) = [120]) ∧
    ((dynCmtInsn.fixed_size = false ∧ dynCmtInsn.comment = some [97, 0] ∧
        ∀ b ∈ [98], b ≠ (0 : Nat)) ∧
      ∃ i2, opdis_insn_add_comment (some dynCmtInsn) (some [98]) = some i2 ∧
        cstr (i2.comment.getD []) = cstr [97, 0] ++ 59 :: [98]) :=
  ⟨⟨⟨rfl, rfl, by decide⟩,
    c8_add_comment.1 insnZero [120] rfl rfl (by decide)⟩,
   ⟨⟨rfl, rfl, by decide⟩,
    c8_add_comment.2.1 dynCmtInsn [97, 0] [98] rfl rfl (by decide)⟩⟩

/-! ### Behaviour of `opdis_insn_dupe`, for C1 and C6 -/

/-- The operand object `opdis_op_dupe` builds from a source operand: a
whole-struct copy with a `strdup`ed ascii string. -/
def dupedOp (op : Op) : Op := { op with ascii := op.ascii.map strdupBuf }

theorem op_dupe_eq (h : OpHeap) (p : Nat) (hp : p < h.length) :
    opdis_op_dupe h p = (h ++ [dupedOp h[p]], some h.length) := by
  simp [opdis_op_dupe, dupedOp, List.getElem?_eq_getElem hp]

/-- A successful run of the operand-duplication loop changes only
`num_operands` and the operand array of the accumulator: every scalar field
of the result — in particular the `target`/`dest`/`src` pointers the
`memcpy` took from the source — is the accumulator's. -/
theorem insn_dupe_ops_preserves (insn : Insn) (k : Nat) :
    ∀ (h : OpHeap) (acc : Insn) (i : Nat) (fin : Insn),
      (insn_dupe_ops h insn acc i k).2 = some fin →
      fin.target = acc.target ∧ fin.dest = acc.dest ∧ fin.src = acc.src ∧
      fin.alloc_operands = acc.alloc_operands ∧
      fin.fixed_size = acc.fixed_size ∧ fin.ascii = acc.ascii ∧
      fin.prefixes = acc.prefixes ∧ fin.mnemonic = acc.mnemonic ∧
      fin.comment = acc.comment ∧ fin.num_prefixes = acc.num_prefixes ∧
      fin.status = acc.status ∧ fin.offset = acc.offset ∧
      fin.vma = acc.vma ∧ fin.size = acc.size ∧ fin.bytes = acc.bytes ∧
      fin.category = acc.category ∧ fin.isa = acc.isa ∧
      fin.flags = acc.flags ∧ fin.ascii_sz = acc.ascii_sz ∧
      fin.mnemonic_sz = acc.mnemonic_sz := by
  induction k with
  | zero =>
      intro h acc i fin hfin
      simp only [insn_dupe_ops, Option.some.injEq] at hfin
      subst hfin
      exact ⟨rfl, rfl, rfl, rfl, rfl, rfl, rfl, rfl, rfl, rfl, rfl, rfl, rfl,
        rfl, rfl, rfl, rfl, rfl, rfl, rfl⟩
  | succ k ih =>
      intro h acc i fin hfin
      rw [insn_dupe_ops] at hfin
      split at hfin
      · simp at hfin
      · split at hfin
        · simp at hfin
        · next h1 q heq =>
            exact ih h1
              { acc with operands := acc.operands.set i (some q),
                         num_operands := acc.num_operands + 1 }
              (i + 1) fin hfin

/-- Full behaviour of the operand-duplication loop of `opdis_insn_dupe` under
valid source pointers: it extends the heap by `k` duplicated operand objects
(leaving every existing cell untouched), bumps the accumulator's
`num_operands` by `k`, and fills slots `[i, i+k)` of the accumulator with
pointers to the fresh duplicates, each a whole-struct copy of its source
operand with a `strdup`ed ascii string. -/
theorem insn_dupe_ops_spec (insn : Insn) (k : Nat) :
    ∀ (h : OpHeap) (acc : Insn) (i : Nat),
      (∀ j, i ≤ j → j < i + k →
        ∃ p, insn.operands.getD j none = some p ∧ p < h.length) →
      i + k ≤ acc.operands.length →
      ∃ fin, (insn_dupe_ops h insn acc i k).2 = some fin ∧
        (insn_dupe_ops h insn acc i k).1.length = h.length + k ∧
        (∀ q, q < h.length →
          ((insn_dupe_ops h insn acc i k).1)[q]? = h[q]?) ∧
        fin.num_operands = acc.num_operands + k ∧
        fin.operands.length = acc.operands.length ∧
        (∀ j, j < i ∨ i + k ≤ j → fin.operands[j]? = acc.operands[j]?) ∧
        (∀ j, i ≤ j → j < i + k →
          ∃ p op, insn.operands.getD j none = some p ∧ h[p]? = some op ∧
            fin.operands[j]? = some (some (h.length + (j - i))) ∧
            ((insn_dupe_ops h insn acc i k).1)[h.length + (j - i)]? =
              some (dupedOp op)) := by
  induction k with
  | zero =>
      intro h acc i _ _
      exact ⟨acc, rfl, by simp [insn_dupe_ops], fun q _ => rfl, rfl, rfl,
        fun j _ => rfl, fun j h1 h2 => by omega⟩
  | succ k ih =>
      intro h acc i hptr hlen
      obtain ⟨p, hp, hplt⟩ := hptr i (Nat.le_refl i) (by omega)
      have hstep : insn_dupe_ops h insn acc i (k + 1) =
          insn_dupe_ops (h ++ [dupedOp h[p]])
            insn
            { acc with operands := acc.operands.set i (some h.length),
                       num_operands := acc.num_operands + 1 }
            (i + 1) k := by
        simp only [insn_dupe_ops, hp, op_dupe_eq h p hplt]
      obtain ⟨fin, e1, e2, e3, e4, e5, e6, e7⟩ :=
        ih (h ++ [dupedOp h[p]])
          { acc with operands := acc.operands.set i (some h.length),
                     num_operands := acc.num_operands + 1 }
          (i + 1)
          (fun j hj1 hj2 => by
            obtain ⟨p', hp', hp'lt⟩ := hptr j (by omega) (by omega)
            exact ⟨p', hp', by simp [List.length_append]; omega⟩)
          (by simp [List.length_set]; omega)
      refine ⟨fin, by rw [hstep]; exact e1, ?_, ?_, ?_, ?_, ?_, ?_⟩
      · rw [hstep, e2]
        simp [List.length_append]
        omega
      · intro q hq
        rw [hstep, e3 q (by simp [List.length_append]; omega)]
        exact List.getElem?_append_left (by omega)
      · rw [e4]
        show acc.num_operands + 1 + k = acc.num_operands + (k + 1)
        omega
      · rw [e5]
        simp [List.length_set]
      · intro j hj
        rw [e6 j (by omega)]
        show (acc.operands.set i (some h.length))[j]? = acc.operands[j]?
        exact List.getElem?_set_ne (by omega)
      · intro j hj1 hj2
        rcases Nat.eq_or_lt_of_le hj1 with hji | hji
        · have hji' : j = i := hji.symm
          subst hji'
          refine ⟨p, h[p], hp, List.getElem?_eq_getElem hplt, ?_, ?_⟩
          · rw [e6 j (by omega)]
            show (acc.operands.set j (some h.length))[j]? =
              some (some (h.length + (j - j)))
            rw [List.getElem?_set_eq_of_lt _ (by omega)]
            simp
          · rw [hstep]
            have hsub : h.length + (j - j) = h.length := by omega
            rw [hsub]
            rw [e3 h.length (by simp [List.length_append])]
            exact List.getElem?_concat_length _ _
        · obtain ⟨p', op', hp', hop', hslot, hheap⟩ :=
            e7 j (by omega) (by omega)
          obtain ⟨p'', hp'', hp''lt⟩ := hptr j (by omega) (by omega)
          have hpp : p' = p'' := by
            rw [hp'] at hp''
            exact (Option.some.injEq _ _ ▸ hp'').symm ▸ rfl
          have hp'lt : p' < h.length := by rw [hpp]; exact hp''lt
          have hlook : h[p']? = some op' := by
            rw [← hop']
            exact (List.getElem?_append_left hp'lt).symm
          refine ⟨p', op', hp', hlook, ?_, ?_⟩
          · rw [hslot]
            have harr : (h ++ [dupedOp h[p]]).length + (j - (i + 1)) = h.length + (j - i) := by
              simp [List.length_append]
              omega
            rw [harr]
          · rw [hstep]
            have harr : (h ++ [dupedOp h[p]]).length + (j - (i + 1)) = h.length + (j - i) := by
              simp [List.length_append]
              omega
            rw [← harr]
            exact hheap

theorem map_cstr_strdup (o : Option Str) :
    (o.map strdupBuf).map cstr = o.map cstr := by
  cases o <;> simp [cstr_strdupBuf]

/-! ### C1: `duplicate` -/

/-- What `opdis_insn_dupe h i` produces (C1 as amended): a fresh heap and
instruction pair in which every scalar field of the instruction — including
`fixed_size`, the capacity fields, `num_prefixes`, `alloc_operands`, and the
`comment` and `bytes` pointers — is copied from the source by the `memcpy`;
the `ascii`/`prefixes`/`mnemonic` strings are fresh `strdup`s of the source's
(absent exactly when the source's are absent) with equal stored content;
`num_operands` is `min` of the source's `num_operands` and the duplicate's
(copied) `alloc_operands`; and each of the first `num_operands` slots holds a
pointer to a freshly heap-allocated operand that is a whole-struct copy of
its source operand with an independently owned, content-equal ascii
string. -/
def c1DupeSpec (h : OpHeap) (i : Insn) : Prop :=
  ∃ h2 i2, opdis_insn_dupe h i = (h2, some i2) ∧
    i2.fixed_size = i.fixed_size ∧
    i2.ascii_sz = i.ascii_sz ∧ i2.mnemonic_sz = i.mnemonic_sz ∧
    i2.status = i.status ∧ i2.offset = i.offset ∧ i2.vma = i.vma ∧
    i2.size = i.size ∧ i2.bytes = i.bytes ∧
    i2.category = i.category ∧ i2.isa = i.isa ∧ i2.flags = i.flags ∧
    i2.comment = i.comment ∧
    i2.ascii = i.ascii.map strdupBuf ∧
    i2.prefixes = i.prefixes.map strdupBuf ∧
    i2.mnemonic = i.mnemonic.map strdupBuf ∧
    i2.ascii.map cstr = i.ascii.map cstr ∧
    i2.prefixes.map cstr = i.prefixes.map cstr ∧
    i2.mnemonic.map cstr = i.mnemonic.map cstr ∧
    i2.num_prefixes = i.num_prefixes ∧
    i2.alloc_operands = i.alloc_operands ∧
    i2.num_operands = min i.num_operands i2.alloc_operands ∧
    i2.operands.length = i.num_operands ∧
    (∀ j, j < i2.num_operands →
      ∃ p q op, i.operands.getD j none = some p ∧ h[p]? = some op ∧
        i2.operands[j]? = some (some q) ∧ h2[q]? = some (dupedOp op) ∧
        (dupedOp op).category = op.category ∧
        (dupedOp op).flags = op.flags ∧
        (dupedOp op).value = op.value ∧
        (dupedOp op).data_size = op.data_size ∧
        (dupedOp op).fixed_size = op.fixed_size ∧
        (dupedOp op).ascii_sz = op.ascii_sz ∧
        (dupedOp op).ascii.map cstr = op.ascii.map cstr)

/-- C1 counterexample: duplicating a fixed-size instruction yields a
duplicate whose `fixed_size` is `true`, not the `false` the claim states:
the whole-struct `memcpy` copies `fixed_size` (and the capacity fields) and
nothing resets them. -/
theorem c1_counterexample :
    ((opdis_insn_dupe []
          { insnZero with fixed_size := true, ascii_sz := 5 }).2.map
        (fun x => x.fixed_size)) = some true ∧
      ((opdis_insn_dupe []
            { insnZero with fixed_size := true, ascii_sz := 5 }).2.map
          (fun x => x.fixed_size)) ≠ some false := by
  constructor
  · decide
  · decide

/-- C1 (amended): for a source instruction whose first `num_operands` slots
hold valid operand pointers, `duplicate` succeeds and satisfies
`c1DupeSpec`: all scalar fields equal to the source's — with `fixed_size`
(and the capacity metadata) copied from the source rather than forced to
false, and `num_prefixes` always carried over — fresh content-equal copies
of the `ascii`/`prefixes`/`mnemonic` strings, `num_operands` equal to
`min(source.num_operands, duplicate.alloc_operands)`, and each duplicated
operand a content-equal fresh copy of its source operand. -/
theorem c1_insn_dupe (h : OpHeap) (i : Insn)
    (hnum : i.num_operands ≤ i.operands.length)
    (hptr : ∀ j, j < i.num_operands →
      ∃ p, i.operands.getD j none = some p ∧ p < h.length) :
    c1DupeSpec h i := by
  set new0 : Insn :=
    { i with operands := List.replicate i.num_operands none,
             ascii := i.ascii.map strdupBuf,
             prefixes := i.prefixes.map strdupBuf,
             mnemonic := i.mnemonic.map strdupBuf,
             num_operands := 0 } with hnew0
  have hdupe : opdis_insn_dupe h i =
      insn_dupe_ops h i new0 0 (min i.num_operands i.alloc_operands) := rfl
  have hn0num : new0.num_operands = 0 := rfl
  have hn0alloc : new0.alloc_operands = i.alloc_operands := rfl
  have hn0ops : new0.operands = List.replicate i.num_operands none := rfl
  have hn0ascii : new0.ascii = i.ascii.map strdupBuf := rfl
  have hn0pre : new0.prefixes = i.prefixes.map strdupBuf := rfl
  have hn0mne : new0.mnemonic = i.mnemonic.map strdupBuf := rfl
  obtain ⟨fin, e1, e2, e3, e4, e5, e6, e7⟩ :=
    insn_dupe_ops_spec i (min i.num_operands i.alloc_operands) h new0 0
      (by
        intro j hj0 hjk
        exact hptr j (by omega))
      (by rw [hn0ops]; simp [List.length_replicate])
  obtain ⟨p1, p2, p3, p4, p5, p6, p7, p8, p9, p10, p11, p12, p13, p14, p15,
    p16, p17, p18, p19, p20⟩ :=
    insn_dupe_ops_preserves i (min i.num_operands i.alloc_operands) h new0
      0 fin e1
  unfold c1DupeSpec
  refine ⟨(insn_dupe_ops h i new0 0 (min i.num_operands i.alloc_operands)).1,
    fin, ?_, ?_, ?_, ?_, ?_, ?_, ?_, ?_, ?_, ?_, ?_, ?_, ?_, ?_, ?_, ?_,
    ?_, ?_, ?_, ?_, ?_, ?_, ?_, ?_⟩
  · rw [hdupe, ← e1]
  · exact p5
  · exact p19
  · exact p20
  · exact p11
  · exact p12
  · exact p13
  · exact p14
  · exact p15
  · exact p16
  · exact p17
  · exact p18
  · exact p9
  · rw [p6, hn0ascii]
  · rw [p7, hn0pre]
  · rw [p8, hn0mne]
  · rw [p6, hn0ascii]
    exact map_cstr_strdup i.ascii
  · rw [p7, hn0pre]
    exact map_cstr_strdup i.prefixes
  · rw [p8, hn0mne]
    exact map_cstr_strdup i.mnemonic
  · exact p10
  · rw [p4, hn0alloc]
  · rw [e4, p4, hn0num, hn0alloc]
    omega
  · rw [e5, hn0ops]
    simp [List.length_replicate]
  · intro j hj
    have hjk : j < min i.num_operands i.alloc_operands := by
      rw [e4, hn0num] at hj
      omega
    obtain ⟨p, op, f1, f2, f3, f4⟩ := e7 j (by omega) (by omega)
    exact ⟨p, h.length + (j - 0), op, f1, f2, f3, f4, rfl, rfl, rfl, rfl,
      rfl, rfl, map_cstr_strdup op.ascii⟩

/-- A one-operand source instruction (operand pointer 0, a two-slot array)
for the C1 witness. -/
def c1insn : Insn :=
  { insnZero with num_operands := 1, alloc_operands := 2,
                  operands := [some 0, none],
                  ascii := some [104, 0], num_prefixes := 2,
                  prefixes := some [108, 0] }

/-- C1 witness: the amended duplicate specification holds of a concrete
one-operand instruction over a one-cell heap. -/
theorem c1_insn_dupe_witness :
    (c1insn.num_operands ≤ c1insn.operands.length) ∧
      c1DupeSpec [{ opZero with ascii := some [97, 0], category := 3 }]
        c1insn := by
  refine ⟨by decide, c1_insn_dupe _ c1insn (by decide) ?_⟩
  intro j hj
  have hj0 : j = 0 := by
    have : c1insn.num_operands = 1 := rfl
    omega
  subst hj0
  exact ⟨0, rfl, by decide⟩

/-! ### C6: the accessor invariant -/

/-- A candidate accessor pointer is acceptable when it is unset or equal to
one of the first `num` entries of the operand pointer array `ops` (the used
region). -/
def ptrInUsed (ops : List (Option Nat)) (num : Nat) (r : Option Nat) : Bool :=
  match r with
  | none => true
  | some p => decide (some p ∈ ops.take num)

/-- The C6 invariant: each of `target`/`dest`/`src` is unset or points at an
operand stored in the instruction's own operand array. -/
def accessorsInv (i : Insn) : Bool :=
  ptrInUsed i.operands i.num_operands i.target &&
    (ptrInUsed i.operands i.num_operands i.dest &&
      ptrInUsed i.operands i.num_operands i.src)

theorem mem_take_set_succ {α : Type} (l : List α) (n : Nat) (x y : α)
    (hx : x ∈ l.take n) : x ∈ (l.set n y).take (n + 1) := by
  induction l generalizing n with
  | nil => simp at hx
  | cons a t ih =>
      cases n with
      | zero => simp at hx
      | succ m =>
          rw [List.take_succ_cons] at hx
          rw [List.set_cons_succ, List.take_succ_cons]
          rcases List.mem_cons.1 hx with h1 | h2
          · exact h1 ▸ List.mem_cons_self a _
          · exact List.mem_cons_of_mem a (ih m h2)

theorem ptrInUsed_inplace (ops : List (Option Nat)) (num p : Nat)
    (r : Option Nat) (h : ptrInUsed ops num r = true) :
    ptrInUsed (ops.set num (some p)) (num + 1) r = true := by
  cases r with
  | none => rfl
  | some q =>
      simp only [ptrInUsed, decide_eq_true_eq] at h ⊢
      exact mem_take_set_succ ops num (some q) (some p) h

theorem ptrInUsed_grow (ops : List (Option Nat)) (num p : Nat)
    (r : Option Nat) (hlen : num = ops.length)
    (h : ptrInUsed ops num r = true) :
    ptrInUsed ((ops ++ [none]).set num (some p)) (num + 1) r = true := by
  cases r with
  | none => rfl
  | some q =>
      simp only [ptrInUsed, decide_eq_true_eq] at h ⊢
      have hset : (ops ++ [none]).set num (some p) = ops ++ [some p] := by
        rw [List.set_append]
        simp [hlen]
      rw [hset, List.take_of_length_le (by simp; omega)]
      exact List.mem_append_left _ (List.mem_of_mem_take h)

/-- C6 counterexample: a one-operand instruction whose `target` is its own
stored operand satisfies the invariant, but its duplicate does not: the
`memcpy` in `opdis_insn_dupe` copies the raw `target` pointer (operand 0,
the source's operand), while the duplicate's array holds only the freshly
allocated copy (operand 1), so the duplicate's `target` refers to an operand
that is not in its own array. -/
theorem c6_counterexample :
    accessorsInv { insnZero with num_operands := 1, alloc_operands := 1, operands := [some 0], target := some 0 } = true ∧
      (opdis_insn_dupe [opZero] { insnZero with num_operands := 1, alloc_operands := 1, operands := [some 0], target := some 0 }).2.map accessorsInv = some false := by
  constructor
  · decide
  · decide

/-- C6 (amended): the accessor invariant holds after both allocators and
after `clear`, and is preserved by `add_operand` on a well-formed
instruction; it is not preserved by `duplicate`: the duplicate's
`target`/`dest`/`src` are verbatim copies of the source's pointers (which
reference the source's operands, not entries of the duplicate's fresh
operand array), so the invariant survives duplication only when all three
accessors are unset.  (`free` destroys the instruction, so no invariant
over the freed object remains statable.) -/
theorem c6_accessor_invariant :
    (∀ n, accessorsInv (opdis_insn_alloc n) = true) ∧
    (∀ (h : OpHeap) (a m n o : Nat),
      accessorsInv (opdis_insn_alloc_fixed h a m n o).2 = true) ∧
    (∀ i : Insn, accessorsInv (opdis_insn_clear i) = true) ∧
    (∀ (ok : Bool) (i : Insn) (p : Nat) (j : Insn) (b : Bool),
      i.num_operands ≤ i.alloc_operands →
      i.alloc_operands = i.operands.length →
      accessorsInv i = true →
      opdis_insn_add_operand ok (some i) (some p) = (some j, b) →
      accessorsInv j = true) ∧
    (∀ (h : OpHeap) (i : Insn) (h2 : OpHeap) (i2 : Insn),
      opdis_insn_dupe h i = (h2, some i2) →
      i2.target = i.target ∧ i2.dest = i.dest ∧ i2.src = i.src) ∧
    (∀ (h : OpHeap) (i : Insn) (h2 : OpHeap) (i2 : Insn),
      i.target = none → i.dest = none → i.src = none →
      opdis_insn_dupe h i = (h2, some i2) → accessorsInv i2 = true) := by
  have hdupe_acc : ∀ (h : OpHeap) (i : Insn) (h2 : OpHeap) (i2 : Insn),
      opdis_insn_dupe h i = (h2, some i2) →
      i2.target = i.target ∧ i2.dest = i.dest ∧ i2.src = i.src := by
    intro h i h2 i2 hd
    have hloop : (insn_dupe_ops h i
        { i with operands := List.replicate i.num_operands none,
                 ascii := i.ascii.map strdupBuf,
                 prefixes := i.prefixes.map strdupBuf,
                 mnemonic := i.mnemonic.map strdupBuf,
                 num_operands := 0 }
        0 (min i.num_operands i.alloc_operands)).2 = some i2 := by
      rw [show (insn_dupe_ops h i
          { i with operands := List.replicate i.num_operands none,
                   ascii := i.ascii.map strdupBuf,
                   prefixes := i.prefixes.map strdupBuf,
                   mnemonic := i.mnemonic.map strdupBuf,
                   num_operands := 0 }
          0 (min i.num_operands i.alloc_operands)) = opdis_insn_dupe h i
        from rfl, hd]
    obtain ⟨q1, q2, q3, _⟩ :=
      insn_dupe_ops_preserves i (min i.num_operands i.alloc_operands) h
        { i with operands := List.replicate i.num_operands none,
                 ascii := i.ascii.map strdupBuf,
                 prefixes := i.prefixes.map strdupBuf,
                 mnemonic := i.mnemonic.map strdupBuf,
                 num_operands := 0 }
        0 i2 hloop
    exact ⟨q1, q2, q3⟩
  refine ⟨?_, ?_, ?_, ?_, hdupe_acc, ?_⟩
  · intro n
    rfl
  · intro h a m n o
    obtain ⟨e1, e2, e3, e4, e5, e6, e7, e8, e9⟩ :=
      insn_alloc_fixed_ops_spec o n h
        { opdis_insn_alloc n with
            ascii := some (callocBuf a),
            prefixes := some (callocBuf (4 * m)),
            mnemonic := some (callocBuf m),
            comment := some (callocBuf a) } 0
    show accessorsInv { (insn_alloc_fixed_ops _ _ _ _ _).2 with
        fixed_size := true, ascii_sz := a % 256,
        mnemonic_sz := m % 256 } = true
    unfold accessorsInv
    rw [show ({ (insn_alloc_fixed_ops h
        { opdis_insn_alloc n with
            ascii := some (callocBuf a),
            prefixes := some (callocBuf (4 * m)),
            mnemonic := some (callocBuf m),
            comment := some (callocBuf a) } o 0 n).2 with
        fixed_size := true, ascii_sz := a % 256,
        mnemonic_sz := m % 256 } : Insn).target =
      (insn_alloc_fixed_ops h
        { opdis_insn_alloc n with
            ascii := some (callocBuf a),
            prefixes := some (callocBuf (4 * m)),
            mnemonic := some (callocBuf m),
            comment := some (callocBuf a) } o 0 n).2.target from rfl, e4]
    rw [show ({ (insn_alloc_fixed_ops h
        { opdis_insn_alloc n with
            ascii := some (callocBuf a),
            prefixes := some (callocBuf (4 * m)),
            mnemonic := some (callocBuf m),
            comment := some (callocBuf a) } o 0 n).2 with
        fixed_size := true, ascii_sz := a % 256,
        mnemonic_sz := m % 256 } : Insn).dest =
      (insn_alloc_fixed_ops h
        { opdis_insn_alloc n with
            ascii := some (callocBuf a),
            prefixes := some (callocBuf (4 * m)),
            mnemonic := some (callocBuf m),
            comment := some (callocBuf a) } o 0 n).2.dest from rfl, e5]
    rw [show ({ (insn_alloc_fixed_ops h
        { opdis_insn_alloc n with
            ascii := some (callocBuf a),
            prefixes := some (callocBuf (4 * m)),
            mnemonic := some (callocBuf m),
            comment := some (callocBuf a) } o 0 n).2 with
        fixed_size := true, ascii_sz := a % 256,
        mnemonic_sz := m % 256 } : Insn).src =
      (insn_alloc_fixed_ops h
        { opdis_insn_alloc n with
            ascii := some (callocBuf a),
            prefixes := some (callocBuf (4 * m)),
            mnemonic := some (callocBuf m),
            comment := some (callocBuf a) } o 0 n).2.src from rfl, e6]
    rfl
  · intro i
    rfl
  · intro ok i p j b hwf1 hwf2 hinv hadd
    unfold accessorsInv at hinv
    rw [Bool.and_eq_true, Bool.and_eq_true] at hinv
    obtain ⟨ht, hd, hs⟩ := hinv
    by_cases hlt : i.num_operands < i.alloc_operands
    · simp only [opdis_insn_add_operand, if_pos hlt, Prod.mk.injEq,
        Option.some.injEq] at hadd
      obtain ⟨hj, _⟩ := hadd
      subst hj
      unfold accessorsInv
      rw [Bool.and_eq_true, Bool.and_eq_true]
      exact ⟨ptrInUsed_inplace i.operands i.num_operands p i.target ht,
        ptrInUsed_inplace i.operands i.num_operands p i.dest hd,
        ptrInUsed_inplace i.operands i.num_operands p i.src hs⟩
    · have hlen : i.num_operands = i.operands.length := by omega
      cases ok with
      | true =>
          simp only [opdis_insn_add_operand, if_neg hlt, if_pos,
            Prod.mk.injEq, Option.some.injEq] at hadd
          obtain ⟨hj, _⟩ := hadd
          subst hj
          unfold accessorsInv
          rw [Bool.and_eq_true, Bool.and_eq_true]
          exact ⟨ptrInUsed_grow i.operands i.num_operands p i.target hlen ht,
            ptrInUsed_grow i.operands i.num_operands p i.dest hlen hd,
            ptrInUsed_grow i.operands i.num_operands p i.src hlen hs⟩
      | false =>
          have hadd' : opdis_insn_add_operand false (some i) (some p) =
              (some i, false) := by
            simp [opdis_insn_add_operand, hlt]
          rw [hadd'] at hadd
          have hj : i = j := by
            have h1 := congrArg Prod.fst hadd
            simpa using h1
          subst hj
          unfold accessorsInv
          rw [Bool.and_eq_true, Bool.and_eq_true]
          exact ⟨ht, hd, hs⟩
  · intro h i h2 i2 ht hd hs hdp
    obtain ⟨q1, q2, q3⟩ := hdupe_acc h i h2 i2 hdp
    unfold accessorsInv
    rw [q1, q2, q3, ht, hd, hs]
    rfl

/-- A well-formed one-operand instruction whose `target` is its stored
operand, with a free slot, for the C6 witness. -/
def c6insn : Insn :=
  { insnZero with num_operands := 1, alloc_operands := 2,
                  operands := [some 5, none], target := some 5 }

/-- The instruction `add_operand` produces from `c6insn` and pointer 9. -/
def c6j : Insn :=
  { insnZero with num_operands := 2, alloc_operands := 2,
                  operands := [some 5, some 9], target := some 5 }

/-- C6 witness: the `add_operand` preservation clause discharged on a
concrete well-formed instruction, and the unset-accessors duplication clause
discharged on a zero instruction. -/
theorem c6_accessor_invariant_witness :
    (c6insn.num_operands ≤ c6insn.alloc_operands ∧
      c6insn.alloc_operands = c6insn.operands.length ∧
      accessorsInv c6insn = true ∧
      opdis_insn_add_operand true (some c6insn) (some 9) = (some c6j, true)) ∧
    accessorsInv c6j = true ∧
    accessorsInv insnZero = true :=
  ⟨⟨by decide, by decide, by decide, by decide⟩,
   c6_accessor_invariant.2.2.2.1 true c6insn 9 c6j true (by decide)
     (by decide) (by decide) (by decide),
   c6_accessor_invariant.2.2.2.2.2 [] insnZero [] insnZero rfl rfl rfl
     (by decide)⟩

end Opdis
